import Mathlib

/-!
Verification development for the `SearchLinkNode` pipeline stage
(`scrapegraphai/nodes/search_link_node.py`).

The node is embedded shallowly:
* Python values that can appear as chunk content or as a parsed
  language-model answer are `PyVal`;
* the shared pipeline state dictionary is an association list
  `State = List (String × Val)` with Python `dict.get` / `dict.update`
  semantics (`getKey` / `setKey`);
* the regex `https?://[^\s"<>\]]+` together with `re.findall` is the
  executable scanner `findall_urls`;
* the language-model chain (langchain `PromptTemplate | llm | JsonOutputParser`,
  external to the repository) is an oracle parameter, modelled from the spec;
* `SearchLinkNode.execute` returns the outcome, the state object after the
  call, the list of payloads passed to the chain, and the number of
  fallback-triggered error-log events.
-/

namespace SearchLink

/-- Python values relevant to the node: strings, integers, `None`,
lists, and an opaque object whose stringification raises
(the only way the `try` body of the source can fail, since every
other value is coerced by `str(...)`). -/
inductive PyVal where
  | pstr (s : String)
  | pint (n : Int)
  | pnone
  | plist (xs : List PyVal)
  | pobj (tag : Nat)

/-- A document chunk: a record exposing the text-content accessor
`page_content` (as produced upstream by the fetch stage). -/
structure Chunk where
  page_content : PyVal

/-- A value stored in the shared pipeline state: either a sequence of
document chunks or some other Python value. -/
inductive Val where
  | vChunks (cs : List Chunk)
  | vVal (v : PyVal)

/-- The shared pipeline state dictionary, keys are unique in practice. -/
abbrev State := List (String × Val)

/-- Python exception kinds distinguished by the development.
`missingInput` is the distinct error kind the spec asks for; the source
never raises it. -/
inductive PyErr where
  | typeError (msg : String)
  | keyError (key : String)
  | attributeError (msg : String)
  | indexError (msg : String)
  | outputParseError (msg : String)
  | missingInput (key : String)
  deriving DecidableEq, Repr

/-- `state.get(k)`: first binding of `k`, `None` (here `Option.none`) if absent. -/
def getKey : State → String → Option Val
  | [], _ => Option.none
  | (k', v) :: st, k => if k' = k then some v else getKey st k

/-- `state.update({k: v})`: replace the (unique) binding of `k` in place,
or append a new binding at the end. -/
def setKey : State → String → Val → State
  | [], k, v => [(k, v)]
  | (k', v') :: st, k, v =>
      if k' = k then (k, v) :: st else (k', v') :: setKey st k v

mutual

/-- Python `repr` restricted to `PyVal` (string escaping omitted;
an opaque object prints a placeholder). -/
def pyRepr : PyVal → String
  | .pstr s => "\x27" ++ s ++ "\x27"
  | .pint n => toString n
  | .pnone => "None"
  | .pobj _ => "<object>"
  | .plist xs => "[" ++ String.intercalate ", " (pyReprList xs) ++ "]"

/-- `pyRepr` mapped over a list (mutual helper). -/
def pyReprList : List PyVal → List String
  | [] => []
  | v :: vs => pyRepr v :: pyReprList vs

end

/-- Python `str(...)` on a `PyVal`; it raises exactly on the opaque
object (whose `__str__` raises), and agrees with `repr` on lists. -/
def pyStrE : PyVal → Except PyErr String
  | .pstr s => .ok s
  | .pint n => .ok (toString n)
  | .pnone => .ok "None"
  | .plist xs => .ok (pyRepr (.plist xs))
  | .pobj _ => .error (.typeError "unprintable object: __str__ raised")

/-- The character class `\s` of the pattern (Python ASCII whitespace). -/
def isPySpace (c : Char) : Bool :=
  c = ' ' || c = '\t' || c = '\n' || c = '\r' || c = '\x0b' || c = '\x0c'

/-- The character class `[^\s"<>\]]` of the pattern: every character
except whitespace, double quote, angle brackets and closing bracket. -/
def urlAllowed (c : Char) : Bool :=
  !(isPySpace c || c = '"' || c = '<' || c = '>' || c = ']')

/-- The literal `http://` of the pattern. -/
def httpLit : List Char := ['h', 't', 't', 'p', ':', '/', '/']

/-- The literal `https://` of the pattern. -/
def httpsLit : List Char := ['h', 't', 't', 'p', 's', ':', '/', '/']

/-- Strip an expected literal off the front of the input. -/
def dropLit : List Char → List Char → Option (List Char)
  | [], cs => some cs
  | _ :: _, [] => Option.none
  | p :: ps, c :: cs => if c = p then dropLit ps cs else Option.none

/-- One attempted match of `https?://[^\s"<>\]]+` anchored at the head of
the input: the greedy alternative `https://` is tried first (as the regex
engine does for `https?`), then `http://`; the body is the maximal
non-empty run of allowed characters. Returns the match and the rest. -/
def matchUrlAt (cs : List Char) : Option (List Char × List Char) :=
  match dropLit httpsLit cs with
  | some r =>
      let t := r.takeWhile urlAllowed
      if t.isEmpty then Option.none
      else some (httpsLit ++ t, r.dropWhile urlAllowed)
  | Option.none =>
      match dropLit httpLit cs with
      | some r =>
          let t := r.takeWhile urlAllowed
          if t.isEmpty then Option.none
          else some (httpLit ++ t, r.dropWhile urlAllowed)
      | Option.none => Option.none

/-- Fuelled scan of the input, one position at a time: at each position
try to match; on success emit the match and resume after it, otherwise
advance one character (the semantics of `re.findall`). -/
def scanAux : Nat → List Char → List String
  | 0, _ => []
  | _ + 1, [] => []
  | fuel + 1, c :: cs =>
      match matchUrlAt (c :: cs) with
      | some (m, rest) => String.mk m :: scanAux fuel rest
      | Option.none => scanAux fuel cs

/-- `re.findall(r'https?://[^\s"<>\]]+', text)` over the characters of
`text`: all non-overlapping matches, leftmost first. -/
def findall_urls (cs : List Char) : List String := scanAux cs.length cs

/-- Modelled from the spec: the langchain prompt-chaining abstraction is an
external collaborator; a chain `PromptTemplate | llm_model | JsonOutputParser`
is a callable taking the invocation payload (a keyword dictionary) and
returning the parsed answer, or failing (model/network fault or parse error). -/
abbrev LLMChain := List (String × PyVal) → Except PyErr PyVal

/-- Modelled from the spec: a langchain `PromptTemplate` (external) carries
the template text and the declared input variables. -/
structure PromptTemplate where
  template : String
  input_variables : List String

/-- The fixed instructional template `prompt_relevant_links` built in the
fallback branch of `execute` (whitespace condensed; its only placeholder
is `{content}`). -/
def prompt_relevant_links : String :=
  "You are a website scraper and you have just scraped the following content from a website.\nContent: {content}\n\nAssume relevance broadly, including any links that might be related or potentially useful\nin relation to the task.\n\nSort it in order of importance, the first one should be the most important one, the last one\nthe least important\n\nPlease list only valid URLs and make sure to err on the side of inclusion if it\x27s uncertain\nwhether the content at the link is directly relevant.\n\nOutput only a list of relevant links in the format:\n[\n\"link1\",\n\"link2\",\n\"link3\",\n.\n.\n.\n]"

/-- The `merge_prompt` template object constructed in the fallback branch:
declared with the two input variables `content` and `user_prompt`. -/
def merge_prompt : PromptTemplate :=
  { template := prompt_relevant_links
    input_variables := ["content", "user_prompt"] }

/-- The invocation payload of `merge_chain.invoke({"content": chunk.page_content})`:
a single keyword argument, the chunk's raw content. -/
def mkPayload (c : Chunk) : List (String × PyVal) :=
  [("content", c.page_content)]

/-- The node object produced by a successful construction: the base-class
wiring (input selector, output keys, name) plus the two fields the
subclass initializer sets. -/
structure SearchLinkNode where
  input : String
  output : List String
  llm_model : LLMChain
  verbose : Bool
  node_name : String

/-- The `node_config` dictionary: presence or absence of the keys
`llm_model` and `verbose`. -/
structure NodeConfig where
  llm_model : Option LLMChain
  verbose : Option Bool

/-- `SearchLinkNode.__init__`. The base-class initializer (outside this
repository; modelled from the spec as pure wiring that records the
arguments and does not fail) runs first; then `node_config["llm_model"]`
is evaluated — a `TypeError` on `None`, a `KeyError` when the key is
absent — and only afterwards the `None`-guarded default for `verbose`. -/
def SearchLinkNode.init (input : String) (output : List String)
    (node_config : Option NodeConfig) (node_name : String) :
    Except PyErr SearchLinkNode :=
  match node_config with
  | Option.none => .error (.typeError "NoneType object is not subscriptable")
  | some cfg =>
      match cfg.llm_model with
      | Option.none => .error (.keyError "llm_model")
      | some llm =>
          .ok { input := input
                output := output
                llm_model := llm
                verbose := cfg.verbose.getD false
                node_name := node_name }

/-- Python `relevant_links += answer`: extending a list with an arbitrary
value succeeds exactly when the value is iterable — a list extends
elementwise, a string extends with its one-character substrings, anything
else raises a `TypeError`. -/
def pyExtend (acc : List PyVal) : PyVal → Except PyErr (List PyVal)
  | .plist xs => .ok (acc ++ xs)
  | .pstr s => .ok (acc ++ s.toList.map (fun c => PyVal.pstr (String.singleton c)))
  | .pint _ => .error (.typeError "int object is not iterable")
  | .pnone => .error (.typeError "NoneType object is not iterable")
  | .pobj _ => .error (.typeError "object is not iterable")

/-- The chunk loop of `execute`: per chunk, try
`re.findall(pattern, str(chunk.page_content))` and append the matches;
if that raises, log the fault (counted), build the prompt and invoke the
chain with `{"content": chunk.page_content}`, then append the answer.
A fault in the fallback branch escapes the loop. Returns the outcome
(accumulated links or the escaping fault), the chain payloads, and the
number of fallback log events. -/
def runChunks (llm : LLMChain) :
    List Chunk → List PyVal → List (List (String × PyVal)) → Nat →
    Except PyErr (List PyVal) × List (List (String × PyVal)) × Nat
  | [], acc, calls, logs => (.ok acc, calls, logs)
  | c :: cs, acc, calls, logs =>
      match pyStrE c.page_content with
      | .ok s => runChunks llm cs (acc ++ (findall_urls s.toList).map PyVal.pstr) calls logs
      | .error _ =>
          match llm (mkPayload c) with
          | .error e => (.error e, calls ++ [mkPayload c], logs + 1)
          | .ok ans =>
              match pyExtend acc ans with
              | .error e => (.error e, calls ++ [mkPayload c], logs + 1)
              | .ok acc2 => runChunks llm cs acc2 (calls ++ [mkPayload c]) (logs + 1)

/-- The observable result of one `execute` call: the outcome (normal
return or escaping exception), the state object as it stands after the
call, the chain invocation payloads, and the fallback log events. -/
structure ExecOut where
  outcome : Except PyErr Unit
  state : State
  llmCalls : List (List (String × PyVal))
  errorLogs : Nat

/-- `state.update({self.output[0]: relevant_links}); return state` —
`self.output[0]` raises an `IndexError` on an empty output-key list,
otherwise the first output key is overwritten with the link list. -/
def finish (node : SearchLinkNode) (st : State) (links : List PyVal)
    (calls : List (List (String × PyVal))) (logs : Nat) : ExecOut :=
  match node.output with
  | [] => ⟨.error (.indexError "list index out of range"), st, calls, logs⟩
  | k :: _ => ⟨.ok (), setKey st k (Val.vVal (PyVal.plist links)), calls, logs⟩

/-- `SearchLinkNode.execute(state)`. The chunk sequence is read with
`state.get("doc")` — the literal key, not the constructed input selector.
An absent key yields `None`, and iterating `None` raises a `TypeError`;
a non-iterable value there raises a `TypeError`; an iterable whose items
lack the `page_content` attribute raises an `AttributeError` on the first
item — logged as a fallback, then re-raised inside the fallback branch
when the payload is built. Only a full success writes the output key. -/
def execute (node : SearchLinkNode) (state : State) : ExecOut :=
  match getKey state "doc" with
  | Option.none =>
      ⟨.error (.typeError "NoneType object is not iterable"), state, [], 0⟩
  | some (Val.vChunks cs) =>
      match runChunks node.llm_model cs [] [] 0 with
      | (.ok links, calls, logs) => finish node state links calls logs
      | (.error e, calls, logs) => ⟨.error e, state, calls, logs⟩
  | some (Val.vVal v) =>
      match v with
      | .pint _ => ⟨.error (.typeError "int object is not iterable"), state, [], 0⟩
      | .pnone => ⟨.error (.typeError "NoneType object is not iterable"), state, [], 0⟩
      | .pobj _ => ⟨.error (.typeError "object is not iterable"), state, [], 0⟩
      | .plist [] => finish node state [] [] 0
      | .plist (_ :: _) =>
          ⟨.error (.attributeError "no attribute page_content"), state, [], 1⟩
      | .pstr s =>
          if s.isEmpty then finish node state [] [] 0
          else ⟨.error (.attributeError "no attribute page_content"), state, [], 1⟩

/-- The regex matches contributed by one chunk on the primary path:
`re.findall` over `str(page_content)` (empty when stringification raises
and the chunk falls back). -/
def chunkLinks (c : Chunk) : List String :=
  match pyStrE c.page_content with
  | .ok s => findall_urls s.toList
  | .error _ => []

/-- The concatenation, in chunk order and then match order within each
chunk, of all regex matches of the chunk sequence. -/
def regexLinksVals (cs : List Chunk) : List PyVal :=
  (cs.map (fun c => (chunkLinks c).map PyVal.pstr)).flatten

/-- Spec-side characterisation, following the spec's words: a match is a
substring that starts with scheme `http://` or `https://` followed by a
non-empty body of characters none of which is excluded, it is maximal
(the character right after it, if any, is excluded), and `rest` is what
follows it. -/
def MatchHere (cs m rest : List Char) : Prop :=
  ∃ body : List Char,
    (m = httpsLit ++ body ∨ m = httpLit ++ body) ∧
    body ≠ [] ∧
    (∀ c ∈ body, urlAllowed c = true) ∧
    cs = m ++ rest ∧
    (∀ c, rest.head? = some c → urlAllowed c = false)

/-- Spec-side characterisation of the whole extraction: the match list of
a text is obtained by scanning left to right, skipping a character only
when no match starts at it, and otherwise taking the (maximal) match and
resuming after it — i.e. exactly the maximal non-overlapping matches in
order of appearance. -/
inductive Findall : List Char → List (List Char) → Prop where
  | nil : Findall [] []
  | skip (c : Char) (cs : List Char) (ms : List (List Char)) :
      (∀ m rest, ¬ MatchHere (c :: cs) m rest) → Findall cs ms →
      Findall (c :: cs) ms
  | found (cs m rest : List Char) (ms : List (List Char)) :
      MatchHere cs m rest → Findall rest ms → Findall cs (m :: ms)

/-- A stub language-model chain returning the fixed parsed answer
`["https://stub.example"]`. -/
def stubLLM : LLMChain := fun _ => .ok (.plist [.pstr "https://stub.example"])

/-- A chain standing in for a configured model that is never expected to
be reached on the regex-only paths. -/
def idleLLM : LLMChain := fun _ => .error (.outputParseError "unexpected call")

/-- Fixture: a node wired as in the concrete scenarios of the spec. -/
def stubNode : SearchLinkNode :=
  { input := "doc", output := ["links"], llm_model := stubLLM
    verbose := false, node_name := "GenerateLinks" }

/-- Fixture: a state whose `doc` chunk holds the non-string content `12345`. -/
def intChunkState : State := [("doc", Val.vChunks [⟨PyVal.pint 12345⟩])]

/-- Fixture: a state without the required `doc` key (it carries an
unrelated binding, to observe that nothing is touched). -/
def noDocState : State := [("user_input", Val.vVal (.pstr "find the links"))]

/-- Fixture: a node constructed with the input selector `links`. -/
def linksInputNode : SearchLinkNode :=
  { input := "links", output := ["out"], llm_model := idleLLM
    verbose := false, node_name := "GenerateLinks" }

/-- Fixture: chunks stored under the key `links` (matching the selector
of `linksInputNode`), not under `doc`. -/
def linksKeyState : State :=
  [("links", Val.vChunks [⟨PyVal.pstr "see https://a.com"⟩])]

/-- Fixture: the same chunks stored under the literal key `doc`. -/
def docKeyState : State :=
  [("doc", Val.vChunks [⟨PyVal.pstr "see https://a.com"⟩])]

/-- Fixture: the spec's concrete regex-only scenario, two chunks of which
the second contributes no match. -/
def scenarioState : State :=
  [("doc", Val.vChunks [⟨PyVal.pstr "Visit https://a.com/x and http://b.org"⟩,
                        ⟨PyVal.pstr "No links here"⟩])]

/-- Fixture: a state whose single chunk carries an unstringifiable
content object, the one way the primary path can fail. -/
def objChunkState : State := [("doc", Val.vChunks [⟨PyVal.pobj 0⟩])]

/-- Fixture: a chain whose parsed response is not a sequence. -/
def intAnswerLLM : LLMChain := fun _ => .ok (.pint 0)

/-- Fixture: a node configured with the non-sequence-answer chain. -/
def badAnswerNode : SearchLinkNode :=
  { input := "doc", output := ["links"], llm_model := intAnswerLLM
    verbose := false, node_name := "GenerateLinks" }

/-- Fixture: a chain that answers the content tagged `0` with a proper
list and any other payload with the non-sequence `0` — so a first
fallback can succeed before a later one fails. -/
def mixedLLM : LLMChain := fun p =>
  match p with
  | [(_, PyVal.pobj 0)] => .ok (.plist [.pstr "https://ok.example"])
  | _ => .ok (.pint 0)

/-- Fixture: a node configured with the mixed chain. -/
def mixedNode : SearchLinkNode :=
  { input := "doc", output := ["links"], llm_model := mixedLLM
    verbose := false, node_name := "GenerateLinks" }

/-- Fixture: two unstringifiable chunks, so both fall back in order. -/
def twoObjState : State :=
  [("doc", Val.vChunks [⟨PyVal.pobj 0⟩, ⟨PyVal.pobj 1⟩])]

/-- A Python sequence in the sense relevant to `relevant_links += answer`:
lists and strings extend a list, anything else raises a `TypeError`. -/
def isPySequence : PyVal → Bool
  | .plist _ => true
  | .pstr _ => true
  | .pint _ => false
  | .pnone => false
  | .pobj _ => false

theorem getKey_setKey_self (st : State) (k : String) (v : Val) :
    getKey (setKey st k v) k = some v := by
  induction st with
  | nil => simp [setKey, getKey]
  | cons p st ih =>
    obtain ⟨ka, va⟩ := p
    by_cases h : ka = k
    · simp [setKey, h, getKey]
    · simp [setKey, h, getKey, ih]

theorem getKey_setKey_ne (st : State) (k k' : String) (v : Val) (h : k' ≠ k) :
    getKey (setKey st k v) k' = getKey st k' := by
  induction st with
  | nil => simp [setKey, getKey, h.symm]
  | cons p st ih =>
    obtain ⟨ka, va⟩ := p
    by_cases hk : ka = k
    · subst hk
      simp [setKey, getKey, h.symm]
    · simp [setKey, hk, getKey, ih]

theorem setKey_setKey (st : State) (k : String) (v : Val) :
    setKey (setKey st k v) k v = setKey st k v := by
  induction st with
  | nil => simp [setKey]
  | cons p st ih =>
    obtain ⟨ka, va⟩ := p
    by_cases hk : ka = k
    · simp [setKey, hk]
    · simp [setKey, hk, ih]

theorem dropLit_some (l : List Char) : ∀ cs r, dropLit l cs = some r ↔ cs = l ++ r := by
  induction l with
  | nil => intro cs r; simp [dropLit]
  | cons p ps ih =>
    intro cs r
    cases cs with
    | nil => simp [dropLit]
    | cons c cs =>
      simp only [dropLit]
      by_cases h : c = p
      · subst h; simp [ih]
      · simp [h, List.cons.injEq]

theorem head?_dropWhile_false (p : Char → Bool) :
    ∀ (l : List Char) (c : Char), (l.dropWhile p).head? = some c → p c = false := by
  intro l
  induction l with
  | nil => intro c h; simp at h
  | cons a l ih =>
    intro c h
    rw [List.dropWhile_cons] at h
    by_cases ha : p a
    · rw [if_pos ha] at h
      exact ih c h
    · rw [if_neg ha] at h
      simp only [List.head?] at h
      injection h with h
      subst h
      simpa using ha

theorem takeWhile_append_all (p : Char → Bool) :
    ∀ (t rest : List Char), (∀ c ∈ t, p c = true) →
      (∀ c, rest.head? = some c → p c = false) →
      (t ++ rest).takeWhile p = t ∧ (t ++ rest).dropWhile p = rest := by
  intro t
  induction t with
  | nil =>
    intro rest _ hr
    cases rest with
    | nil => simp
    | cons c rest =>
      have := hr c rfl
      simp [List.takeWhile_cons, List.dropWhile_cons, this]
  | cons a t ih =>
    intro rest ht hr
    have ha : p a = true := ht a (by simp)
    have hrec := ih rest (fun c hc => ht c (by simp [hc])) hr
    simp [List.takeWhile_cons, List.dropWhile_cons, ha, hrec.1, hrec.2]

theorem matchUrlAt_iff (cs m rest : List Char) :
    matchUrlAt cs = some (m, rest) ↔ MatchHere cs m rest := by
  constructor
  · intro h
    unfold matchUrlAt at h
    cases h1 : dropLit httpsLit cs with
    | some r =>
      rw [h1] at h
      simp only at h
      by_cases he : (r.takeWhile urlAllowed).isEmpty
      · rw [if_pos he] at h; cases h
      · rw [if_neg he] at h
        injection h with h
        injection h with hm hrest
        refine ⟨r.takeWhile urlAllowed, Or.inl hm.symm, by simpa using he,
          fun c hc => List.mem_takeWhile_imp hc, ?_, ?_⟩
        · rw [← hm, ← hrest, List.append_assoc, List.takeWhile_append_dropWhile]
          exact (dropLit_some _ _ _).mp h1
        · intro c hc
          rw [← hrest] at hc
          exact head?_dropWhile_false urlAllowed r c hc
    | none =>
      rw [h1] at h
      cases h2 : dropLit httpLit cs with
      | some r =>
        rw [h2] at h
        simp only at h
        by_cases he : (r.takeWhile urlAllowed).isEmpty
        · rw [if_pos he] at h; cases h
        · rw [if_neg he] at h
          injection h with h
          injection h with hm hrest
          refine ⟨r.takeWhile urlAllowed, Or.inr hm.symm, by simpa using he,
            fun c hc => List.mem_takeWhile_imp hc, ?_, ?_⟩
          · rw [← hm, ← hrest, List.append_assoc, List.takeWhile_append_dropWhile]
            exact (dropLit_some _ _ _).mp h2
          · intro c hc
            rw [← hrest] at hc
            exact head?_dropWhile_false urlAllowed r c hc
      | none =>
        rw [h2] at h
        cases h
  · rintro ⟨body, hscheme, hne, hall, hcs, hrest⟩
    have hsplit := takeWhile_append_all urlAllowed body rest hall hrest
    cases hscheme with
    | inl hm =>
      subst hm
      rw [List.append_assoc] at hcs
      have h1 : dropLit httpsLit cs = some (body ++ rest) := (dropLit_some _ _ _).mpr hcs
      unfold matchUrlAt
      rw [h1]
      simp only [hsplit.1, hsplit.2]
      rw [if_neg (by simpa using hne)]
    | inr hm =>
      subst hm
      rw [List.append_assoc] at hcs
      have h1 : dropLit httpsLit cs = Option.none := by
        subst hcs
        simp [httpLit, httpsLit, dropLit]
      have h2 : dropLit httpLit cs = some (body ++ rest) := (dropLit_some _ _ _).mpr hcs
      unfold matchUrlAt
      rw [h1, h2]
      simp only [hsplit.1, hsplit.2]
      rw [if_neg (by simpa using hne)]

theorem matchUrlAt_some_parts (cs m rest : List Char) (h : matchUrlAt cs = some (m, rest)) :
    cs = m ++ rest ∧ m ≠ [] := by
  obtain ⟨body, hscheme, -, -, hcs, -⟩ := (matchUrlAt_iff cs m rest).mp h
  refine ⟨hcs, ?_⟩
  cases hscheme with
  | inl hm => subst hm; simp [httpsLit]
  | inr hm => subst hm; simp [httpLit]

theorem scanAux_findall : ∀ (fuel : Nat) (cs : List Char), cs.length ≤ fuel →
    Findall cs ((scanAux fuel cs).map String.toList) := by
  intro fuel
  induction fuel with
  | zero =>
    intro cs hcs
    have : cs = [] := List.eq_nil_of_length_eq_zero (Nat.le_zero.mp hcs)
    subst this
    exact Findall.nil
  | succ fuel ih =>
    intro cs hcs
    cases cs with
    | nil => exact Findall.nil
    | cons c cs =>
      cases h : matchUrlAt (c :: cs) with
      | none =>
        have hno : ∀ m rest, ¬ MatchHere (c :: cs) m rest := by
          intro m rest hm
          exact Option.noConfusion (h ▸ (matchUrlAt_iff (c :: cs) m rest).mpr hm)
        simp only [scanAux, h]
        refine Findall.skip c cs _ hno (ih cs ?_)
        simp only [List.length_cons] at hcs
        omega
      | some pr =>
        obtain ⟨m, rest⟩ := pr
        have hm := (matchUrlAt_iff (c :: cs) m rest).mp h
        have hparts := matchUrlAt_some_parts _ _ _ h
        simp only [scanAux, h, List.map_cons]
        have hmk : (String.mk m).toList = m := rfl
        rw [hmk]
        refine Findall.found _ m rest _ hm (ih rest ?_)
        have hlt : rest.length < (c :: cs).length := by
          rw [hparts.1, List.length_append]
          have := List.length_pos.mpr hparts.2
          omega
        simp only [List.length_cons] at hlt hcs
        omega

theorem runChunks_skip_regex (llm : LLMChain) :
    ∀ (cs1 rest : List Chunk) (acc : List PyVal)
      (calls : List (List (String × PyVal))) (logs : Nat),
      (∀ c ∈ cs1, ∃ s, pyStrE c.page_content = .ok s) →
      runChunks llm (cs1 ++ rest) acc calls logs =
        runChunks llm rest (acc ++ regexLinksVals cs1) calls logs := by
  intro cs1
  induction cs1 with
  | nil =>
    intro rest acc calls logs _
    simp [regexLinksVals]
  | cons c cs1 ih =>
    intro rest acc calls logs hall
    obtain ⟨s, hs⟩ := hall c (by simp)
    simp only [List.cons_append, runChunks, hs, List.append_eq]
    rw [ih rest _ calls logs (fun c' hc' => hall c' (by simp [hc']))]
    simp [regexLinksVals, chunkLinks, hs, List.append_assoc]

theorem runChunks_regex (llm : LLMChain) (cs : List Chunk)
    (acc : List PyVal) (calls : List (List (String × PyVal))) (logs : Nat)
    (hall : ∀ c ∈ cs, ∃ s, pyStrE c.page_content = .ok s) :
    runChunks llm cs acc calls logs = (.ok (acc ++ regexLinksVals cs), calls, logs) := by
  have := runChunks_skip_regex llm cs [] acc calls logs hall
  simpa [runChunks] using this

theorem runChunks_calls (llm : LLMChain) :
    ∀ (cs : List Chunk) (acc : List PyVal)
      (calls : List (List (String × PyVal))) (logs : Nat) (p : List (String × PyVal)),
      p ∈ (runChunks llm cs acc calls logs).2.1 →
      p ∈ calls ∨ ∃ c ∈ cs, p = mkPayload c := by
  intro cs
  induction cs with
  | nil =>
    intro acc calls logs p hp
    exact Or.inl (by simpa [runChunks] using hp)
  | cons c cs ih =>
    intro acc calls logs p hp
    cases hs : pyStrE c.page_content with
    | ok s =>
      simp only [runChunks, hs] at hp
      rcases ih _ _ _ p hp with h | ⟨c', hc', he⟩
      · exact Or.inl h
      · exact Or.inr ⟨c', by simp [hc'], he⟩
    | error e =>
      simp only [runChunks, hs] at hp
      cases hl : llm (mkPayload c) with
      | error e2 =>
        simp only [hl] at hp
        rcases List.mem_append.mp hp with h | h
        · exact Or.inl h
        · exact Or.inr ⟨c, by simp, List.mem_singleton.mp h⟩
      | ok ans =>
        simp only [hl] at hp
        cases he : pyExtend acc ans with
        | error e2 =>
          simp only [he] at hp
          rcases List.mem_append.mp hp with h | h
          · exact Or.inl h
          · exact Or.inr ⟨c, by simp, List.mem_singleton.mp h⟩
        | ok acc2 =>
          simp only [he] at hp
          rcases ih _ _ _ p hp with h | ⟨c', hc', hpe⟩
          · rcases List.mem_append.mp h with h' | h'
            · exact Or.inl h'
            · exact Or.inr ⟨c, by simp, List.mem_singleton.mp h'⟩
          · exact Or.inr ⟨c', by simp [hc'], hpe⟩

theorem pyExtend_not_seq (ans : PyVal) (h : isPySequence ans = false) :
    ∀ acc : List PyVal, ∃ e, pyExtend acc ans = .error e := by
  intro acc
  cases ans <;> simp_all [isPySequence, pyExtend]

theorem runChunks_single_fallback (llm : LLMChain) (c : Chunk) (e : PyErr)
    (h : pyStrE c.page_content = .error e) :
    (runChunks llm [c] [] [] 0).2.1 = [mkPayload c] ∧
    (runChunks llm [c] [] [] 0).2.2 = 1 := by
  simp only [runChunks, h]
  cases hl : llm (mkPayload c) with
  | error e2 => simp [hl]
  | ok ans =>
    cases he : pyExtend [] ans with
    | error e2 => simp [hl, he]
    | ok acc2 => simp [hl, he, runChunks]

theorem runChunks_fallback_error (llm : LLMChain) (c : Chunk) (cs : List Chunk)
    (acc : List PyVal) (calls : List (List (String × PyVal))) (logs : Nat)
    (hc : ∃ e, pyStrE c.page_content = .error e)
    (hfail : (∃ e, llm (mkPayload c) = .error e) ∨
             (∃ ans, llm (mkPayload c) = .ok ans ∧ isPySequence ans = false)) :
    ∃ e, (runChunks llm (c :: cs) acc calls logs).1 = .error e := by
  obtain ⟨e, he⟩ := hc
  simp only [runChunks, he]
  rcases hfail with ⟨e2, hl⟩ | ⟨ans, hl, hans⟩
  · simp only [hl]
    exact ⟨e2, rfl⟩
  · obtain ⟨e3, hext⟩ := pyExtend_not_seq ans hans acc
    simp only [hl, hext]
    exact ⟨e3, rfl⟩

theorem runChunks_mem_fallback_error (llm : LLMChain) :
    ∀ (cs : List Chunk) (acc : List PyVal)
      (calls : List (List (String × PyVal))) (logs : Nat) (c : Chunk),
      c ∈ cs →
      (∃ e, pyStrE c.page_content = .error e) →
      ((∃ e, llm (mkPayload c) = .error e) ∨
       (∃ ans, llm (mkPayload c) = .ok ans ∧ isPySequence ans = false)) →
      ∃ e, (runChunks llm cs acc calls logs).1 = .error e := by
  intro cs
  induction cs with
  | nil => intro acc calls logs c hc; cases hc
  | cons c0 cs ih =>
    intro acc calls logs c hc hstr hfail
    rcases List.mem_cons.mp hc with rfl | hmem
    · exact runChunks_fallback_error llm c cs acc calls logs hstr hfail
    · cases hs : pyStrE c0.page_content with
      | ok s =>
        simp only [runChunks, hs]
        exact ih _ _ _ c hmem hstr hfail
      | error e0 =>
        simp only [runChunks, hs]
        cases hl : llm (mkPayload c0) with
        | error e2 => exact ⟨e2, by simp [hl]⟩
        | ok ans =>
          cases he : pyExtend acc ans with
          | error e2 => exact ⟨e2, by simp [hl, he]⟩
          | ok acc2 =>
            simp only [hl, he]
            exact ih _ _ _ c hmem hstr hfail

theorem execute_chunks (node : SearchLinkNode) (st : State) (cs : List Chunk)
    (hdoc : getKey st "doc" = some (Val.vChunks cs)) :
    execute node st =
      match runChunks node.llm_model cs [] [] 0 with
      | (.ok links, calls, logs) => finish node st links calls logs
      | (.error e, calls, logs) => ⟨.error e, st, calls, logs⟩ := by
  simp [execute, hdoc]

theorem execute_regex_only (node : SearchLinkNode) (st : State) (cs : List Chunk)
    (k : String) (ks : List String)
    (hdoc : getKey st "doc" = some (Val.vChunks cs))
    (hall : ∀ c ∈ cs, ∃ s, pyStrE c.page_content = .ok s)
    (hout : node.output = k :: ks) :
    execute node st =
      ⟨.ok (), setKey st k (Val.vVal (PyVal.plist (regexLinksVals cs))), [], 0⟩ := by
  rw [execute_chunks node st cs hdoc,
    runChunks_regex node.llm_model cs [] [] 0 hall]
  simp [finish, hout]

theorem execute_error_state (node : SearchLinkNode) (st : State) (e : PyErr)
    (h : (execute node st).outcome = .error e) : (execute node st).state = st := by
  cases hdoc : getKey st "doc" with
  | none => simp [execute, hdoc]
  | some v =>
    cases v with
    | vChunks cs =>
      rcases hr : runChunks node.llm_model cs [] [] 0 with ⟨res, calls, logs⟩
      cases res with
      | ok links =>
        have hex : execute node st = finish node st links calls logs := by
          simp [execute, hdoc, hr]
        rw [hex] at h ⊢
        cases ho : node.output with
        | nil => simp [finish, ho]
        | cons k ks => simp [finish, ho] at h
      | error e2 => simp [execute, hdoc, hr]
    | vVal v =>
      cases v with
      | pstr s =>
        by_cases hs : s.isEmpty
        · have hex : execute node st = finish node st [] [] 0 := by
            simp [execute, hdoc, hs]
          rw [hex] at h ⊢
          cases ho : node.output with
          | nil => simp [finish, ho]
          | cons k ks => simp [finish, ho] at h
        · simp [execute, hdoc, hs]
      | pint n => simp [execute, hdoc]
      | pnone => simp [execute, hdoc]
      | pobj t => simp [execute, hdoc]
      | plist xs =>
        cases xs with
        | nil =>
          have hex : execute node st = finish node st [] [] 0 := by
            simp [execute, hdoc]
          rw [hex] at h ⊢
          cases ho : node.output with
          | nil => simp [finish, ho]
          | cons k ks => simp [finish, ho] at h
        | cons x xs => simp [execute, hdoc]

theorem execute_ok_shape (node : SearchLinkNode) (st : State)
    (h : (execute node st).outcome = .ok ()) :
    ∃ k ks links, node.output = k :: ks ∧
      (execute node st).state = setKey st k (Val.vVal (PyVal.plist links)) := by
  cases hdoc : getKey st "doc" with
  | none => simp [execute, hdoc] at h
  | some v =>
    cases v with
    | vChunks cs =>
      rcases hr : runChunks node.llm_model cs [] [] 0 with ⟨res, calls, logs⟩
      cases res with
      | ok links =>
        have hex : execute node st = finish node st links calls logs := by
          simp [execute, hdoc, hr]
        rw [hex] at h ⊢
        cases ho : node.output with
        | nil => simp [finish, ho] at h
        | cons k ks => exact ⟨k, ks, links, rfl, by simp [finish, ho]⟩
      | error e2 => simp [execute, hdoc, hr] at h
    | vVal v =>
      cases v with
      | pstr s =>
        by_cases hs : s.isEmpty
        · have hex : execute node st = finish node st [] [] 0 := by
            simp [execute, hdoc, hs]
          rw [hex] at h ⊢
          cases ho : node.output with
          | nil => simp [finish, ho] at h
          | cons k ks => exact ⟨k, ks, [], rfl, by simp [finish, ho]⟩
        · simp [execute, hdoc, hs] at h
      | pint n => simp [execute, hdoc] at h
      | pnone => simp [execute, hdoc] at h
      | pobj t => simp [execute, hdoc] at h
      | plist xs =>
        cases xs with
        | nil =>
          have hex : execute node st = finish node st [] [] 0 := by
            simp [execute, hdoc]
          rw [hex] at h ⊢
          cases ho : node.output with
          | nil => simp [finish, ho] at h
          | cons k ks => exact ⟨k, ks, [], rfl, by simp [finish, ho]⟩
        | cons x xs => simp [execute, hdoc] at h

theorem execute_calls_logs (node : SearchLinkNode) (st : State) (cs : List Chunk)
    (hdoc : getKey st "doc" = some (Val.vChunks cs)) :
    (execute node st).llmCalls = (runChunks node.llm_model cs [] [] 0).2.1 ∧
    (execute node st).errorLogs = (runChunks node.llm_model cs [] [] 0).2.2 := by
  rcases hr : runChunks node.llm_model cs [] [] 0 with ⟨res, calls, logs⟩
  rw [execute_chunks node st cs hdoc, hr]
  cases res with
  | ok links => cases ho : node.output <;> simp [finish, ho]
  | error e => simp

/-- Claim C1: for every state whose chunk sequence consists only of chunks
whose content is a string, `execute` terminates normally, writes under the
first output key the concatenation — in chunk order and then match order
within each chunk — of all regex matches over each chunk's content, and the
language-model fallback is never invoked (no chain call, no fallback log). -/
theorem claim_c1_regex_concat (node : SearchLinkNode) (st : State) (cs : List Chunk)
    (k : String) (ks : List String)
    (hdoc : getKey st "doc" = some (Val.vChunks cs))
    (hstr : ∀ c ∈ cs, ∃ s, c.page_content = PyVal.pstr s)
    (hout : node.output = k :: ks) :
    (execute node st).outcome = .ok () ∧
    (execute node st).llmCalls = [] ∧
    (execute node st).errorLogs = 0 ∧
    getKey (execute node st).state k =
      some (Val.vVal (PyVal.plist (regexLinksVals cs))) := by
  have hall : ∀ c ∈ cs, ∃ s, pyStrE c.page_content = .ok s := by
    intro c hc
    obtain ⟨s, hs⟩ := hstr c hc
    exact ⟨s, by rw [hs]; rfl⟩
  rw [execute_regex_only node st cs k ks hdoc hall hout]
  exact ⟨rfl, rfl, rfl, getKey_setKey_self st k _⟩

/-- Claim C1 witness: the spec's concrete scenario — chunks
`["Visit https://a.com/x and http://b.org", "No links here"]` yield
exactly `["https://a.com/x", "http://b.org"]`, with no chain call. -/
theorem claim_c1_regex_concat_witness :
    (getKey scenarioState "doc" =
      some (Val.vChunks [⟨PyVal.pstr "Visit https://a.com/x and http://b.org"⟩,
                         ⟨PyVal.pstr "No links here"⟩]) ∧
     stubNode.output = "links" :: []) ∧
    ((execute stubNode scenarioState).outcome = .ok () ∧
     (execute stubNode scenarioState).llmCalls = [] ∧
     (execute stubNode scenarioState).errorLogs = 0 ∧
     getKey (execute stubNode scenarioState).state "links" =
       some (Val.vVal (PyVal.plist
         (regexLinksVals [⟨PyVal.pstr "Visit https://a.com/x and http://b.org"⟩,
                          ⟨PyVal.pstr "No links here"⟩])))) ∧
    regexLinksVals [⟨PyVal.pstr "Visit https://a.com/x and http://b.org"⟩,
                    ⟨PyVal.pstr "No links here"⟩] =
      [PyVal.pstr "https://a.com/x", PyVal.pstr "http://b.org"] := by
  refine ⟨⟨rfl, rfl⟩, ?_, rfl⟩
  refine claim_c1_regex_concat stubNode scenarioState _ "links" [] rfl ?_ rfl
  intro c hc
  simp only [List.mem_cons, List.not_mem_nil, or_false] at hc
  rcases hc with rfl | rfl
  · exact ⟨_, rfl⟩
  · exact ⟨_, rfl⟩

/-- Claim C2 contradicted by the code: on a state lacking the required `doc`
key, `execute` fails — but with the generic `TypeError` raised by iterating
`None`, not with a distinct missing-input error kind, and not with the
`KeyError` its own docstring promises; the state mapping is left unmodified
and no chain call or fallback log is made. -/
theorem claim_c2_missing_doc_generic_fault :
    (execute stubNode noDocState).outcome =
      .error (PyErr.typeError "NoneType object is not iterable") ∧
    (execute stubNode noDocState).state = noDocState ∧
    (execute stubNode noDocState).llmCalls = [] ∧
    (∀ key, (execute stubNode noDocState).outcome ≠ .error (PyErr.missingInput key)) ∧
    (∀ key, (execute stubNode noDocState).outcome ≠ .error (PyErr.keyError key)) := by
  have h0 : (execute stubNode noDocState).outcome =
      .error (PyErr.typeError "NoneType object is not iterable") := rfl
  refine ⟨rfl, rfl, rfl, ?_, ?_⟩ <;>
    · intro key h
      rw [h0] at h
      injection h with h1
      exact PyErr.noConfusion h1

/-- Claim C3 counterexample: for input chunks `[{content: 12345}]` with the
stub chain returning `["https://stub.example"]`, the code does NOT fall back:
`str(12345)` succeeds, the regex path finds nothing, the chain is never
called, no fallback log event occurs, and the output is `[]` — not the
stub answer the claim expects. -/
theorem claim_c3_counterexample :
    (execute stubNode intChunkState).outcome = .ok () ∧
    (execute stubNode intChunkState).llmCalls = [] ∧
    (execute stubNode intChunkState).errorLogs = 0 ∧
    getKey (execute stubNode intChunkState).state "links" =
      some (Val.vVal (PyVal.plist [])) ∧
    getKey (execute stubNode intChunkState).state "links" ≠
      some (Val.vVal (PyVal.plist [PyVal.pstr "https://stub.example"])) := by
  have h0 : getKey (execute stubNode intChunkState).state "links" =
      some (Val.vVal (PyVal.plist [])) := rfl
  refine ⟨rfl, rfl, rfl, rfl, ?_⟩
  rw [h0]
  intro h
  injection h with h1
  injection h1 with h2
  injection h2 with h3
  cases h3

/-- Claim C3 amended: a chunk whose content is a non-string value such as a
number is coerced by `str(...)` and handled by the regex path — the fallback
is not invoked and for `[{content: 12345}]` the output is `[]` with no model
call and no fallback log; the fallback path is invoked only for a chunk whose
content cannot be stringified, and then the chain is called with that chunk's
raw content. -/
theorem claim_c3_amended :
    (∀ (node : SearchLinkNode) (st : State) (n : Int) (k : String) (ks : List String),
      getKey st "doc" = some (Val.vChunks [⟨PyVal.pint n⟩]) →
      node.output = k :: ks →
      (execute node st).llmCalls = [] ∧
      (execute node st).errorLogs = 0 ∧
      (execute node st).outcome = .ok () ∧
      getKey (execute node st).state k =
        some (Val.vVal (PyVal.plist
          ((findall_urls (toString n).toList).map PyVal.pstr)))) ∧
    (∀ (node : SearchLinkNode) (st : State) (t : Nat),
      getKey st "doc" = some (Val.vChunks [⟨PyVal.pobj t⟩]) →
      (execute node st).llmCalls = [mkPayload ⟨PyVal.pobj t⟩] ∧
      (execute node st).errorLogs = 1) := by
  constructor
  · intro node st n k ks hdoc hout
    have hall : ∀ c ∈ [(⟨PyVal.pint n⟩ : Chunk)], ∃ s, pyStrE c.page_content = .ok s := by
      intro c hc
      simp only [List.mem_singleton] at hc
      subst hc
      exact ⟨toString n, rfl⟩
    rw [execute_regex_only node st _ k ks hdoc hall hout]
    refine ⟨rfl, rfl, rfl, ?_⟩
    have hlinks : regexLinksVals [(⟨PyVal.pint n⟩ : Chunk)] =
        (findall_urls (toString n).toList).map PyVal.pstr := by
      simp [regexLinksVals, chunkLinks, pyStrE]
    rw [hlinks]
    exact getKey_setKey_self st k _
  · intro node st t hdoc
    have hcl := execute_calls_logs node st _ hdoc
    have hsf := runChunks_single_fallback node.llm_model ⟨PyVal.pobj t⟩ _ rfl
    rw [hcl.1, hcl.2]
    exact ⟨hsf.1, hsf.2⟩

/-- Claim C3 amended witness: the two parts instantiated — the numeric chunk
`12345` with the stub chain makes no call and yields `[]`; the
unstringifiable chunk makes exactly one call, with one fallback log. -/
theorem claim_c3_amended_witness :
    ((getKey intChunkState "doc" = some (Val.vChunks [⟨PyVal.pint 12345⟩]) ∧
      stubNode.output = "links" :: []) ∧
     ((execute stubNode intChunkState).llmCalls = [] ∧
      (execute stubNode intChunkState).errorLogs = 0 ∧
      (execute stubNode intChunkState).outcome = .ok () ∧
      getKey (execute stubNode intChunkState).state "links" =
        some (Val.vVal (PyVal.plist
          ((findall_urls (toString (12345 : Int)).toList).map PyVal.pstr))))) ∧
    (getKey objChunkState "doc" = some (Val.vChunks [⟨PyVal.pobj 0⟩]) ∧
     ((execute stubNode objChunkState).llmCalls = [mkPayload ⟨PyVal.pobj 0⟩] ∧
      (execute stubNode objChunkState).errorLogs = 1)) :=
  ⟨⟨⟨rfl, rfl⟩, claim_c3_amended.1 stubNode intChunkState 12345 "links" [] rfl rfl⟩,
   ⟨rfl, claim_c3_amended.2 stubNode objChunkState 0 rfl⟩⟩

/-- Claim C4: whenever `execute` aborts with an error the state object is
left untouched (all-or-nothing, no partial results key); and whenever the
fallback fails for some chunk of the sequence — its content unstringifiable
and the chain call failing or its parsed response not a sequence — the
execution aborts with an uncaught error and the output key is not written,
regardless of how the other chunks fare (regex path, successful fallback,
or an even earlier abort). -/
theorem claim_c4_fallback_fault_aborts :
    (∀ (node : SearchLinkNode) (st : State) (e : PyErr),
      (execute node st).outcome = .error e → (execute node st).state = st) ∧
    (∀ (node : SearchLinkNode) (st : State) (cs : List Chunk) (c : Chunk),
      getKey st "doc" = some (Val.vChunks cs) →
      c ∈ cs →
      (∃ e, pyStrE c.page_content = .error e) →
      ((∃ e, node.llm_model (mkPayload c) = .error e) ∨
       (∃ ans, node.llm_model (mkPayload c) = .ok ans ∧ isPySequence ans = false)) →
      ∃ e, (execute node st).outcome = .error e ∧ (execute node st).state = st) := by
  constructor
  · exact execute_error_state
  · intro node st cs c hdoc hmem hstr hfail
    obtain ⟨e, he⟩ :=
      runChunks_mem_fallback_error node.llm_model cs [] [] 0 c hmem hstr hfail
    rcases hr : runChunks node.llm_model cs [] [] 0 with ⟨res, calls, logs⟩
    rw [hr] at he
    simp only at he
    subst he
    rw [execute_chunks node st _ hdoc, hr]
    exact ⟨e, rfl, rfl⟩

/-- Claim C4 witness: the all-or-nothing part at the missing-key abort, and
the fallback-failure part on a run whose first chunk's fallback succeeds
(the chain answers a proper list) before the second chunk's fallback fails
(the parsed answer `0` is not a sequence): both payloads are sent, two
fallback log events occur, the run aborts and the state is untouched. -/
theorem claim_c4_fallback_fault_aborts_witness :
    ((execute stubNode noDocState).outcome =
        .error (PyErr.typeError "NoneType object is not iterable") ∧
     (execute stubNode noDocState).state = noDocState) ∧
    ((getKey twoObjState "doc" =
        some (Val.vChunks [⟨PyVal.pobj 0⟩, ⟨PyVal.pobj 1⟩]) ∧
      (⟨PyVal.pobj 1⟩ : Chunk) ∈ [(⟨PyVal.pobj 0⟩ : Chunk), ⟨PyVal.pobj 1⟩] ∧
      mixedNode.llm_model (mkPayload ⟨PyVal.pobj 0⟩) =
        .ok (PyVal.plist [PyVal.pstr "https://ok.example"]) ∧
      mixedNode.llm_model (mkPayload ⟨PyVal.pobj 1⟩) = .ok (PyVal.pint 0)) ∧
     (∃ e, (execute mixedNode twoObjState).outcome = .error e ∧
           (execute mixedNode twoObjState).state = twoObjState) ∧
     (execute mixedNode twoObjState).llmCalls =
       [mkPayload ⟨PyVal.pobj 0⟩, mkPayload ⟨PyVal.pobj 1⟩] ∧
     (execute mixedNode twoObjState).errorLogs = 2) :=
  ⟨⟨rfl, claim_c4_fallback_fault_aborts.1 stubNode noDocState
      (PyErr.typeError "NoneType object is not iterable") rfl⟩,
   ⟨⟨rfl, List.Mem.tail _ (List.Mem.head _), rfl, rfl⟩,
    claim_c4_fallback_fault_aborts.2 mixedNode twoObjState
      [⟨PyVal.pobj 0⟩, ⟨PyVal.pobj 1⟩] ⟨PyVal.pobj 1⟩ rfl
      (List.Mem.tail _ (List.Mem.head _)) ⟨_, rfl⟩
      (Or.inr ⟨PyVal.pint 0, rfl, rfl⟩),
    rfl, rfl⟩⟩

/-- Claim C5: a successful `execute` writes the link list into exactly the
first configured output key — overwriting any prior value there — leaves
every other key of the state mapping unchanged, and returns that state. -/
theorem claim_c5_output_frame (node : SearchLinkNode) (st : State)
    (k : String) (ks : List String)
    (hout : node.output = k :: ks)
    (hok : (execute node st).outcome = .ok ()) :
    (∃ links : List PyVal,
      getKey (execute node st).state k = some (Val.vVal (PyVal.plist links))) ∧
    (∀ k', k' ≠ k → getKey (execute node st).state k' = getKey st k') := by
  obtain ⟨k0, ks0, links, ho0, hstate⟩ := execute_ok_shape node st hok
  rw [hout] at ho0
  injection ho0 with hk hks
  subst hk
  refine ⟨⟨links, ?_⟩, ?_⟩
  · rw [hstate]
    exact getKey_setKey_self st k _
  · intro k' hk'
    rw [hstate]
    exact getKey_setKey_ne st k k' _ hk'

/-- Claim C5 witness: on the regex scenario the node writes exactly the
`links` key (absent beforehand, so the write adds it) and leaves every
other binding of the state unchanged. -/
theorem claim_c5_output_frame_witness :
    (stubNode.output = "links" :: [] ∧
     (execute stubNode scenarioState).outcome = .ok ()) ∧
    ((∃ links : List PyVal,
       getKey (execute stubNode scenarioState).state "links" =
         some (Val.vVal (PyVal.plist links))) ∧
     (∀ k', k' ≠ "links" →
       getKey (execute stubNode scenarioState).state k' = getKey scenarioState k')) :=
  ⟨⟨rfl, rfl⟩, claim_c5_output_frame stubNode scenarioState "links" [] rfl rfl⟩

/-- Claim C6: the per-chunk extraction is exactly the leftmost-maximal scan
of the fixed URL pattern: for every text, the match list produced by
`findall_urls` satisfies the spec-side `Findall` characterisation — each
match starts with scheme `http://` or `https://` followed by one or more
characters outside the excluded class, is maximal, the matches are
non-overlapping and in order of appearance, and no position inside a
skipped stretch starts a match. -/
theorem claim_c6_regex_exact (cs : List Char) :
    Findall cs ((findall_urls cs).map String.toList) :=
  scanAux_findall cs.length cs le_rfl

/-- Claim C7: with string-content chunks (regex path only, no fallback),
running the node again on the state produced by a first run yields the
identical result — same output sequence, same state, still no chain call —
i.e. the extraction is deterministic and the node keeps no memory. -/
theorem claim_c7_idempotent (node : SearchLinkNode) (st : State) (cs : List Chunk)
    (k : String) (ks : List String)
    (hdoc : getKey st "doc" = some (Val.vChunks cs))
    (hstr : ∀ c ∈ cs, ∃ s, c.page_content = PyVal.pstr s)
    (hout : node.output = k :: ks)
    (hk : k ≠ "doc") :
    execute node (execute node st).state = execute node st ∧
    (execute node st).llmCalls = [] := by
  have hall : ∀ c ∈ cs, ∃ s, pyStrE c.page_content = .ok s := by
    intro c hc
    obtain ⟨s, hs⟩ := hstr c hc
    exact ⟨s, by rw [hs]; rfl⟩
  have h1 := execute_regex_only node st cs k ks hdoc hall hout
  have hdoc2 : getKey (execute node st).state "doc" = some (Val.vChunks cs) := by
    rw [h1]
    show getKey (setKey st k (Val.vVal (PyVal.plist (regexLinksVals cs)))) "doc" = _
    rw [getKey_setKey_ne st k "doc" _ hk.symm]
    exact hdoc
  have h2 := execute_regex_only node (execute node st).state cs k ks hdoc2 hall hout
  constructor
  · rw [h2, h1]
    simp [setKey_setKey]
  · simp [h1]

/-- Claim C7 witness: running the node twice on the regex scenario — the
second invocation on the state mutated by the first reproduces it exactly. -/
theorem claim_c7_idempotent_witness :
    (getKey scenarioState "doc" =
      some (Val.vChunks [⟨PyVal.pstr "Visit https://a.com/x and http://b.org"⟩,
                         ⟨PyVal.pstr "No links here"⟩]) ∧
     stubNode.output = "links" :: [] ∧ "links" ≠ "doc") ∧
    (execute stubNode (execute stubNode scenarioState).state =
      execute stubNode scenarioState ∧
     (execute stubNode scenarioState).llmCalls = []) := by
  refine ⟨⟨rfl, rfl, by decide⟩, ?_⟩
  refine claim_c7_idempotent stubNode scenarioState _ "links" [] rfl ?_ rfl (by decide)
  intro c hc
  simp only [List.mem_cons, List.not_mem_nil, or_false] at hc
  rcases hc with rfl | rfl
  · exact ⟨_, rfl⟩
  · exact ⟨_, rfl⟩

/-- Claim C8 contradicted by the code: `execute` reads the chunk sequence
from the fixed literal key `doc`, not from the key named by the input
selector supplied at construction — a node built with selector `links`
ignores chunks stored under `links` (it fails with the missing-`doc`
`TypeError`, leaving the state untouched) yet processes chunks stored
under `doc`; the node's own docstring promises the input keys are used. -/
theorem claim_c8_fixed_doc_key :
    linksInputNode.input = "links" ∧
    (execute linksInputNode linksKeyState).outcome =
      .error (PyErr.typeError "NoneType object is not iterable") ∧
    (execute linksInputNode linksKeyState).state = linksKeyState ∧
    (execute linksInputNode docKeyState).outcome = .ok () ∧
    getKey (execute linksInputNode docKeyState).state "out" =
      some (Val.vVal (PyVal.plist [PyVal.pstr "https://a.com"])) :=
  ⟨rfl, rfl, rfl, rfl, rfl⟩

/-- Claim C9: the template is declared with the two input variables
`content` and `user_prompt`, yet every chain invocation made by `execute`
carries exactly one argument — key `content`, value the raw content of one
of the state's chunks; `user_prompt` is never supplied. -/
theorem claim_c9_single_argument (node : SearchLinkNode) (st : State)
    (cs : List Chunk) (p : List (String × PyVal))
    (hdoc : getKey st "doc" = some (Val.vChunks cs))
    (hp : p ∈ (execute node st).llmCalls) :
    merge_prompt.input_variables = ["content", "user_prompt"] ∧
    p.map Prod.fst = ["content"] ∧
    (∃ c ∈ cs, p = mkPayload c) := by
  rw [(execute_calls_logs node st cs hdoc).1] at hp
  rcases runChunks_calls node.llm_model cs [] [] 0 p hp with h | ⟨c, hc, rfl⟩
  · cases h
  · exact ⟨rfl, rfl, c, hc, rfl⟩

/-- Claim C9 witness: the one chain call made for the unstringifiable chunk
carries the single key `content` with that chunk's raw content. -/
theorem claim_c9_single_argument_witness :
    (getKey objChunkState "doc" = some (Val.vChunks [⟨PyVal.pobj 0⟩]) ∧
     mkPayload ⟨PyVal.pobj 0⟩ ∈ (execute stubNode objChunkState).llmCalls) ∧
    (merge_prompt.input_variables = ["content", "user_prompt"] ∧
     (mkPayload ⟨PyVal.pobj 0⟩).map Prod.fst = ["content"] ∧
     (∃ c ∈ [(⟨PyVal.pobj 0⟩ : Chunk)], mkPayload ⟨PyVal.pobj 0⟩ = mkPayload c)) := by
  have hp : mkPayload ⟨PyVal.pobj 0⟩ ∈ (execute stubNode objChunkState).llmCalls :=
    List.mem_singleton.mpr rfl
  exact ⟨⟨rfl, hp⟩,
    claim_c9_single_argument stubNode objChunkState [⟨PyVal.pobj 0⟩] _ rfl hp⟩

/-- Claim C10: constructing with the declared default `node_config = None`
raises before a node is produced — `node_config["llm_model"]` is evaluated
before the `None`-guard defaulting `verbose` — so that guard's `None`
branch is unreachable; a configuration without `llm_model` also fails, and
a configuration with it succeeds with `verbose` defaulted through the
non-`None` branch. -/
theorem claim_c10_none_config (input : String) (output : List String)
    (node_name : String) (vb : Option Bool) (llm : LLMChain) :
    SearchLinkNode.init input output Option.none node_name =
      .error (PyErr.typeError "NoneType object is not subscriptable") ∧
    SearchLinkNode.init input output (some ⟨Option.none, vb⟩) node_name =
      .error (PyErr.keyError "llm_model") ∧
    SearchLinkNode.init input output (some ⟨some llm, Option.none⟩) node_name =
      .ok ⟨input, output, llm, false, node_name⟩ :=
  ⟨rfl, rfl, rfl⟩

end SearchLink
